import Mathlib

set_option maxRecDepth 100000
set_option maxHeartbeats 1000000

/-!
Shallow embedding of tlst.py, a converter between the binary TLST
track-list format and a JSON representation.

Conventions:
- byte buffers are modelled as List Nat (each element a byte value);
- Python str values are modelled by their UTF-8 byte sequences (List Nat);
- Python int is modelled as Int (unbounded); range checks happen where
  struct.pack performs them, as in the source;
- fallible operations return Option (encode side, json side) or the
  three-valued DecOutcome (decode side, which can also fail to terminate).
-/

/-- One track entry (class TLSTEntry, tlst.py lines 93-115).  Numeric
fields are unbounded integers as in Python; range checking happens only
at struct.pack time.  title and filename hold the UTF-8 bytes of the
Python strings. -/
structure TLSTEntry where
  songId : Int
  delay : Int
  volume : Int
  frequency : Int
  switch : Int
  disablePinch : Bool
  disableTlstInclusion : Bool
  title : List Nat
  filename : List Nat
deriving DecidableEq

/-- The default-constructed TLSTEntry (TLSTEntry.__init__, lines 96-105). -/
def TLSTEntry.init : TLSTEntry :=
  { songId := 0, delay := 0, volume := 0, frequency := 0, switch := 0,
    disablePinch := false, disableTlstInclusion := false, title := [], filename := [] }

/-- A track list (class TLST, lines 118-122). -/
structure TLST where
  tracks : List TLSTEntry
deriving DecidableEq

/-! ## struct.pack / struct.unpack -/

/-- struct.pack of format ">I": big-endian unsigned 32-bit; raises
struct.error (None) outside [0, 2^32). -/
def packU32 (v : Int) : Option (List Nat) :=
  if 0 ≤ v ∧ v < 4294967296 then
    some [v.toNat / 16777216 % 256, v.toNat / 65536 % 256, v.toNat / 256 % 256, v.toNat % 256]
  else none

/-- struct.pack of format ">H": big-endian unsigned 16-bit; raises
struct.error (None) outside [0, 2^16). -/
def packU16 (v : Int) : Option (List Nat) :=
  if 0 ≤ v ∧ v < 65536 then
    some [v.toNat / 256, v.toNat % 256]
  else none

/-- struct.pack of format ">b": signed 8-bit two's complement; raises
struct.error (None) outside [-128, 127]. -/
def packI8 (v : Int) : Option (List Nat) :=
  if -128 ≤ v ∧ v ≤ 127 then some [(v % 256).toNat] else none

/-- struct.pack of format ">?": one byte, 1 for True and 0 for False. -/
def packBool (b : Bool) : List Nat :=
  [if b then 1 else 0]

/-- struct.unpack of format ">I"; struct.error (None) unless the data is
exactly 4 bytes. -/
def unpackU32 (bs : List Nat) : Option Nat :=
  if bs.length = 4 then
    some (bs.getD 0 0 * 16777216 + bs.getD 1 0 * 65536 + bs.getD 2 0 * 256 + bs.getD 3 0)
  else none

/-- struct.unpack of format ">H"; struct.error (None) unless the data is
exactly 2 bytes. -/
def unpackU16 (bs : List Nat) : Option Nat :=
  if bs.length = 2 then some (bs.getD 0 0 * 256 + bs.getD 1 0) else none

/-- struct.unpack of format ">b" (signed byte, two's complement);
struct.error (None) unless the data is exactly 1 byte. -/
def unpackI8 (bs : List Nat) : Option Int :=
  if bs.length = 1 then
    some (if bs.getD 0 0 < 128 then (bs.getD 0 0 : Int) else (bs.getD 0 0 : Int) - 256)
  else none

/-- struct.unpack of format ">?" (any nonzero byte is True);
struct.error (None) unless the data is exactly 1 byte. -/
def unpackBool (bs : List Nat) : Option Bool :=
  if bs.length = 1 then some (bs.getD 0 0 != 0) else none

/-! ## Binary encoder (TLST.toTlst, lines 187-251)

The output file is modelled as a byte list plus a seek position.  The
track list is carried in the state so that a mutation of self.tracks by
the encoder would be observable in the final state (the source never
mutates it, which claim C10 is about). -/

/-- Encoder state: self.tracks, the bytes written so far, and the seek
position of the output file. -/
structure EncState where
  tracks : List TLSTEntry
  buf : List Nat
  pos : Nat
deriving DecidableEq

/-- Write bytes bs at byte position pos of buf, zero-filling any gap
(Python semantics of writing after seeking past the end of a file). -/
def storeBytes (buf : List Nat) (pos : Nat) (bs : List Nat) : List Nat :=
  (buf.take pos ++ List.replicate (pos - buf.length) 0) ++ (bs ++ buf.drop (pos + bs.length))

/-- f.write(bs). -/
def fwrite (s : EncState) (bs : List Nat) : EncState :=
  { s with buf := storeBytes s.buf s.pos bs, pos := s.pos + bs.length }

/-- f.seek(p, io.SEEK_SET). -/
def fseek (s : EncState) (p : Nat) : EncState :=
  { s with pos := p }

/-- The nine fixed-record writes for one entry (toTlst lines 196-208).
The two 16-bit offset slots are written as the 0xFFFF placeholders. -/
def writeRecord (s : EncState) (e : TLSTEntry) : Option EncState := do
  let b1 ← packU32 e.songId
  let b2 ← packU16 e.delay
  let b3 ← packI8 e.volume
  let b4 ← packI8 e.frequency
  let b5 ← packU16 65535
  let b6 ← packU16 65535
  let b7 ← packU16 e.switch
  let b8 := packBool e.disablePinch
  let b9 := packBool e.disableTlstInclusion
  pure (fwrite (fwrite (fwrite (fwrite (fwrite (fwrite (fwrite (fwrite (fwrite s b1) b2) b3) b4) b5) b6) b7) b8) b9)

/-- One iteration of the string-table loop (toTlst lines 213-246):
write the entry's filename and then title (when non-empty) at the
current end position, back-patching each 16-bit offset, relative to
stringsOffset, into the entry's fixed record. -/
def writeStringsStep (stringsOffset x : Nat) (s : EncState) : Option EncState := do
  let entry ← s.tracks[x]?
  let filenameOff := s.pos
  let s ← if entry.filename ≠ [] then do
      let s1 := fwrite s entry.filename
      let s2 := fwrite s1 [0]
      let prevOff := s2.pos
      let s3 := fseek s2 (x * 16 + 12 + 8)
      let b ← packU16 ((filenameOff : Int) - (stringsOffset : Int))
      let s4 := fwrite s3 b
      pure (fseek s4 prevOff)
    else pure s
  let titleOff := s.pos
  let s ← if entry.title ≠ [] then do
      let s1 := fwrite s entry.title
      let s2 := fwrite s1 [0]
      let prevOff := s2.pos
      let s3 := fseek s2 (x * 16 + 12 + 10)
      let b ← packU16 ((titleOff : Int) - (stringsOffset : Int))
      let s4 := fwrite s3 b
      pure (fseek s4 prevOff)
    else pure s
  pure s

/-- The string-table loop, iterating x over range(0, len(self.tracks));
k is the number of iterations still to run. -/
def writeStringsFrom (stringsOffset : Nat) : Nat → Nat → EncState → Option EncState
  | _, 0, s => some s
  | x, k + 1, s => do
      let s1 ← writeStringsStep stringsOffset x s
      writeStringsFrom stringsOffset (x + 1) k s1

/-- TLST.toTlst (lines 187-251), producing the final file state.  A None
result models a raised struct.error. -/
def TLST.toTlstProc (self : TLST) : Option EncState := do
  let s0 : EncState := { tracks := self.tracks, buf := [], pos := 0 }
  let s1 := fwrite s0 [84, 76, 83, 84]
  let cb ← packU32 (s1.tracks.length : Int)
  let s2 := fwrite s1 cb
  let s3 := fseek s2 12
  let s4 ← s3.tracks.foldlM writeRecord s3
  let stringsOffset := s4.pos
  let s5 ← writeStringsFrom stringsOffset 0 s4.tracks.length s4
  let totalSize := s5.pos
  let s6 := fseek s5 8
  let bt ← packU16 (totalSize : Int)
  let s7 := fwrite s6 bt
  let bso ← packU16 (stringsOffset : Int)
  pure (fwrite s7 bso)

/-- The bytes written to disk by TLST.toTlst. -/
def TLST.toTlst (self : TLST) : Option (List Nat) :=
  (self.toTlstProc).map (fun s => s.buf)

/-! ## Binary decoder (readNTString and TLST.fromTlst, lines 84-90 and 136-185) -/

/-- Outcome of running the decoder: a normal result, a raised exception
(struct.error on a short read), or non-termination. -/
inductive DecOutcome (α : Type) where
  | ok (a : α)
  | err
  | hang
deriving DecidableEq

def DecOutcome.bind {α β : Type} : DecOutcome α → (α → DecOutcome β) → DecOutcome β
  | .ok a, f => f a
  | .err, _ => .err
  | .hang, _ => .hang

instance : Monad DecOutcome where
  pure := DecOutcome.ok
  bind := DecOutcome.bind

/-- Lift struct.unpack results into the decoder: None is a raised
struct.error. -/
def ofOpt {α : Type} : Option α → DecOutcome α
  | some a => .ok a
  | none => .err

/-- f.read(n) at position pos of a buffer: returns up to n bytes. -/
def freadBytes (buf : List Nat) (pos n : Nat) : List Nat :=
  (buf.drop pos).take n

/-- The byte-by-byte scan of readNTString over the remainder of the
buffer: bytes before the first NUL plus the count of bytes consumed
(terminator included); none when no NUL occurs, in which case the
Python loop reads b"" at end-of-file forever. -/
def scanNul : List Nat → Option (List Nat × Nat)
  | [] => none
  | c :: rest =>
      if c = 0 then some ([], 1)
      else (scanNul rest).map (fun p => (c :: p.1, p.2 + 1))

/-- A UTF-8 continuation byte (0x80-0xBF). -/
def utf8Cont (b : Nat) : Bool :=
  128 ≤ b && b ≤ 191

/-- Whether a byte sequence is valid UTF-8 (RFC 3629, as enforced by
CPython's strict utf-8 codec: no overlong forms, no surrogates, code
points at most U+10FFFF).  bytes.decode("utf-8") raises a
UnicodeDecodeError exactly when this is false. -/
def validUTF8 : List Nat → Bool
  | [] => true
  | c :: rest =>
    if c ≤ 127 then validUTF8 rest
    else if 194 ≤ c && c ≤ 223 then
      match rest with
      | b1 :: rest1 => utf8Cont b1 && validUTF8 rest1
      | [] => false
    else if 224 ≤ c && c ≤ 239 then
      match rest with
      | b1 :: b2 :: rest2 =>
          (if c = 224 then 160 ≤ b1 && b1 ≤ 191
           else if c = 237 then 128 ≤ b1 && b1 ≤ 159
           else utf8Cont b1) && utf8Cont b2 && validUTF8 rest2
      | _ => false
    else if 240 ≤ c && c ≤ 244 then
      match rest with
      | b1 :: b2 :: b3 :: rest3 =>
          (if c = 240 then 144 ≤ b1 && b1 ≤ 191
           else if c = 244 then 128 ≤ b1 && b1 ≤ 143
           else utf8Cont b1) && utf8Cont b2 && utf8Cont b3 && validUTF8 rest3
      | _ => false
    else false

/-- readNTString (lines 84-90): read a null-terminated string starting
at pos; result is the bytes before the terminator and the new file
position.  When no 0x00 byte occurs at or after pos the source loops
forever, modelled as hang; when the collected bytes are not valid
UTF-8, data.decode("utf-8") at line 89 raises UnicodeDecodeError,
modelled as err. -/
def readNTString (buf : List Nat) (pos : Nat) : DecOutcome (List Nat × Nat) :=
  match scanNul (buf.drop pos) with
  | none => .hang
  | some p => if validUTF8 p.1 then .ok (p.1, pos + p.2) else .err

/-- Reading one entry of TLST.fromTlst (lines 155-178): the nine fixed
fields at x*16+12, then the title and the filename strings when their
offsets are not the 0xFFFF sentinel.  The second component is the file
position after the entry (f.tell() at line 181). -/
def readEntry (buf : List Nat) (stringsOffset x : Nat) : DecOutcome (TLSTEntry × Nat) := do
  let pos := x * 16 + 12
  let songId ← ofOpt (unpackU32 (freadBytes buf pos 4))
  let delay ← ofOpt (unpackU16 (freadBytes buf (pos + 4) 2))
  let volume ← ofOpt (unpackI8 (freadBytes buf (pos + 6) 1))
  let frequency ← ofOpt (unpackI8 (freadBytes buf (pos + 7) 1))
  let filenameOffset ← ofOpt (unpackU16 (freadBytes buf (pos + 8) 2))
  let titleOffset ← ofOpt (unpackU16 (freadBytes buf (pos + 10) 2))
  let sw ← ofOpt (unpackU16 (freadBytes buf (pos + 12) 2))
  let disablePinch ← ofOpt (unpackBool (freadBytes buf (pos + 14) 1))
  let disableTlstInclusion ← ofOpt (unpackBool (freadBytes buf (pos + 15) 1))
  let p0 := pos + 16
  let tp ← if titleOffset ≠ 65535 then readNTString buf (titleOffset + stringsOffset)
           else pure (([] : List Nat), p0)
  let fp ← if filenameOffset ≠ 65535 then readNTString buf (filenameOffset + stringsOffset)
           else pure (([] : List Nat), tp.2)
  pure ({ songId := (songId : Int), delay := (delay : Int), volume := volume,
          frequency := frequency, switch := (sw : Int), disablePinch := disablePinch,
          disableTlstInclusion := disableTlstInclusion, title := tp.1, filename := fp.1 },
        fp.2)

/-- The entry loop of TLST.fromTlst (lines 155-182), with the early
stop of line 181-182: after appending an entry, stop when the file
position equals the end of the buffer.  x is the next entry index, the
second Nat argument the number of iterations left. -/
def decodeLoop (buf : List Nat) (stringsOffset : Nat) : Nat → Nat → DecOutcome (List TLSTEntry)
  | _, 0 => .ok []
  | x, k + 1 => do
      let ep ← readEntry buf stringsOffset x
      if ep.2 = buf.length then pure [ep.1]
      else do
        let rest ← decodeLoop buf stringsOffset (x + 1) k
        pure (ep.1 :: rest)

/-- TLST.fromTlst (lines 136-185).  The magic is skipped without being
checked (f.seek(0x4) at line 143); the entry count is read at offset 4,
the size field skipped, the string-table offset read at offset 10. -/
def TLST.fromTlst (buf : List Nat) : DecOutcome TLST := do
  let numEntries ← ofOpt (unpackU32 (freadBytes buf 4 4))
  let stringsOffset ← ofOpt (unpackU16 (freadBytes buf 10 2))
  let entries ← decodeLoop buf stringsOffset 0 numEntries
  pure { tracks := entries }

/-- The big-endian 16-bit value stored at byte position p of a buffer
(observer used to state properties of produced buffers). -/
def bufU16 (buf : List Nat) (p : Nat) : Nat :=
  buf.getD p 0 * 256 + buf.getD (p + 1) 0

/-! ## JSON mapping (TLSTJsonEncoder lines 34-55, TLSTJsonDecoder lines 58-81)

JSON documents and the Python values flowing through json.load with an
object_hook are modelled by PyVal.  The model restricts field values to
the schema types of the record model (Python itself would store an
ill-typed value unchecked; such documents are not representable in the
typed record model and are mapped to None). -/

inductive PyVal where
  | jnum (n : Int)
  | jbool (b : Bool)
  | jstr (s : List Nat)
  | jlist (xs : List PyVal)
  | jdict (fields : List (String × PyVal))
  | entryObj (e : TLSTEntry)
  | tlstObj (t : TLST)

/-- Python "k in d" on a (JSON-object) dict. -/
def hasKey (d : List (String × PyVal)) (k : String) : Bool :=
  d.any (fun p => p.1 == k)

/-- Python d[k]: the value when present (first binding), None models a
raised KeyError. -/
def lookupField (d : List (String × PyVal)) (k : String) : Option PyVal :=
  (d.find? (fun p => p.1 == k)).map (fun p => p.2)

def asInt : PyVal → Option Int
  | .jnum n => some n
  | _ => none

def asBool : PyVal → Option Bool
  | .jbool b => some b
  | _ => none

def asStr : PyVal → Option (List Nat)
  | .jstr s => some s
  | _ => none

def asList : PyVal → Option (List PyVal)
  | .jlist xs => some xs
  | _ => none

def asEntry : PyVal → Option TLSTEntry
  | .entryObj e => some e
  | _ => none

/-- TLSTJsonDecoder.dict_to_object (lines 64-81): a dict with a songId
key is turned into an entry by reading all nine fields (d[...] raises
KeyError when a field is missing: None); otherwise a dict with a tracks
key becomes a TLST; any other dict is returned unchanged. -/
def TLSTJsonDecoder.dict_to_object (d : List (String × PyVal)) : Option PyVal :=
  if hasKey d "songId" then do
    let songId ← lookupField d "songId" >>= asInt
    let delay ← lookupField d "delay" >>= asInt
    let volume ← lookupField d "volume" >>= asInt
    let frequency ← lookupField d "frequency" >>= asInt
    let sw ← lookupField d "switch" >>= asInt
    let disablePinch ← lookupField d "disablePinch" >>= asBool
    let disableTlstInclusion ← lookupField d "disableTlstInclusion" >>= asBool
    let title ← lookupField d "title" >>= asStr
    let filename ← lookupField d "filename" >>= asStr
    some (.entryObj { songId := songId, delay := delay, volume := volume,
                      frequency := frequency, switch := sw, disablePinch := disablePinch,
                      disableTlstInclusion := disableTlstInclusion, title := title,
                      filename := filename })
  else if hasKey d "tracks" then do
    let tr ← lookupField d "tracks"
    let xs ← asList tr
    let es ← xs.mapM asEntry
    some (.tlstObj { tracks := es })
  else
    some (.jdict d)

mutual

/-- json.load with object_hook = dict_to_object: the hook is applied to
every parsed JSON object, innermost first. -/
def applyHook : PyVal → Option PyVal
  | .jdict fields => do
      let fs ← applyHookFields fields
      TLSTJsonDecoder.dict_to_object fs
  | .jlist xs => do
      let ys ← applyHookList xs
      pure (.jlist ys)
  | v => some v

def applyHookList : List PyVal → Option (List PyVal)
  | [] => some []
  | v :: rest => do
      let v2 ← applyHook v
      let r2 ← applyHookList rest
      pure (v2 :: r2)

def applyHookFields : List (String × PyVal) → Option (List (String × PyVal))
  | [] => some []
  | (k, v) :: rest => do
      let v2 ← applyHook v
      let r2 ← applyHookFields rest
      pure ((k, v2) :: r2)

end

/-- The JSON object emitted for one entry by TLSTJsonEncoder.default
(lines 38-49), fields in source order. -/
def serializeEntry (e : TLSTEntry) : PyVal :=
  .jdict [("songId", .jnum e.songId), ("delay", .jnum e.delay),
          ("volume", .jnum e.volume), ("frequency", .jnum e.frequency),
          ("switch", .jnum e.switch), ("disablePinch", .jbool e.disablePinch),
          ("disableTlstInclusion", .jbool e.disableTlstInclusion),
          ("title", .jstr e.title), ("filename", .jstr e.filename)]

/-- The JSON document emitted for a TLST by json.dumps with
TLSTJsonEncoder (lines 50-53): the default hook maps the TLST object to
a dict with the tracks list, and each contained entry to its nine-field
dict, the serializer recursing through lists and dicts. -/
def serializeTLST (t : TLST) : PyVal :=
  .jdict [("tracks", .jlist (t.tracks.map serializeEntry))]

/-! ## Invariants used to verify the encoder's offset back-patching -/

/-- File-state invariant during the string-table loop: the seek
position sits at the end of the written bytes, at or after the
string-table start. -/
def EncInv (so : Nat) (s : EncState) : Prop :=
  s.buf.length = s.pos ∧ so ≤ s.pos

/-- After the string loop has processed entries 0..x-1: every non-empty
string field of a processed entry has its back-patched offset v stored
big-endian in the entry's record slot, with v in 16-bit range and the
string's bytes (at least v+2 past the string-table start) already
written before the current position. -/
def SlotsOk (tracks : List TLSTEntry) (so x : Nat) (s : EncState) : Prop :=
  ∀ y, y < x → ∀ hy : y < tracks.length,
    ((tracks.get ⟨y, hy⟩).filename ≠ [] →
      ∃ v, v < 65536 ∧ so + v + 2 ≤ s.pos ∧
        s.buf.getD (y * 16 + 20) 0 = v / 256 ∧ s.buf.getD (y * 16 + 21) 0 = v % 256) ∧
    ((tracks.get ⟨y, hy⟩).title ≠ [] →
      ∃ v, v < 65536 ∧ so + v + 2 ≤ s.pos ∧
        s.buf.getD (y * 16 + 22) 0 = v / 256 ∧ s.buf.getD (y * 16 + 23) 0 = v % 256)

/-! ## Concrete inputs used by the claim theorems -/

/-- The entry of the spec's encode scenario: songId=1, title "Song A",
filename "song_a.brstm" (UTF-8 bytes). -/
def scenarioEntry : TLSTEntry :=
  { songId := 1, delay := 0, volume := 0, frequency := 0, switch := 0,
    disablePinch := false, disableTlstInclusion := false,
    title := [83, 111, 110, 103, 32, 65],
    filename := [115, 111, 110, 103, 95, 97, 46, 98, 114, 115, 116, 109] }

/-- The scenario track list with the single scenarioEntry. -/
def scenarioTLST : TLST := ⟨[scenarioEntry]⟩

/-- An entry whose filename is the single byte "a" and whose other
fields are the defaults. -/
def entryFnA : TLSTEntry := { TLSTEntry.init with filename := [97] }

/-- A well-formed two-entry track list: first entry with filename "a",
second entry all defaults.  Its encoding ends exactly at the end of the
first entry's string data, which triggers the decoder's early stop. -/
def twoTrackTLST : TLST := ⟨[entryFnA, TLSTEntry.init]⟩

/-- A 12-byte buffer whose first four bytes are "XXXX" instead of the
TLST magic, declaring zero entries. -/
def badMagicBuf : List Nat := [88, 88, 88, 88, 0, 0, 0, 0, 0, 12, 0, 12]

/-- A 28-byte buffer with one declared entry whose title offset is 0
while stringsOffset is 28, so the string position 28 is outside the
buffer (valid indices are 0..27). -/
def oobBuf : List Nat :=
  [84, 76, 83, 84, 0, 0, 0, 1, 0, 28, 0, 28,
   0, 0, 0, 0, 0, 0, 0, 0, 255, 255, 0, 0, 0, 0, 0, 0]

/-- A 29-byte buffer declaring two entries but holding only one
complete 16-byte record followed by a single junk byte. -/
def overdeclaredBuf : List Nat :=
  [84, 76, 83, 84, 0, 0, 0, 2, 0, 29, 0, 28,
   0, 0, 0, 0, 0, 0, 0, 0, 255, 255, 255, 255, 0, 0, 0, 0, 0]

/-- A 44-byte buffer declaring five entries but holding exactly two
complete records and no string table: the position after the second
record equals the end of the buffer. -/
def earlyStopBuf : List Nat :=
  [84, 76, 83, 84, 0, 0, 0, 5, 0, 44, 0, 44,
   0, 0, 0, 0, 0, 0, 0, 0, 255, 255, 255, 255, 0, 0, 0, 0,
   0, 0, 0, 0, 0, 0, 0, 0, 255, 255, 255, 255, 0, 0, 0, 0]

/-- A one-entry track list with filename "a" and title "b", used to
witness the stored-offset bound. -/
def offsetsWitnessTLST : TLST :=
  ⟨[{ TLSTEntry.init with filename := [97], title := [98] }]⟩

/-- A JSON entry object carrying eight of the nine fields, with
disablePinch absent. -/
def entryDictNoPinch : List (String × PyVal) :=
  [("songId", .jnum 1), ("delay", .jnum 0), ("volume", .jnum 0),
   ("frequency", .jnum 0), ("switch", .jnum 0),
   ("disableTlstInclusion", .jbool false), ("title", .jstr []), ("filename", .jstr [])]

/-! ## Reduction lemmas for the DecOutcome monad -/

@[simp] theorem DecOutcome.ok_bind {α β : Type} (a : α) (f : α → DecOutcome β) :
    (DecOutcome.ok a >>= f) = f a := rfl

@[simp] theorem DecOutcome.err_bind {α β : Type} (f : α → DecOutcome β) :
    ((DecOutcome.err : DecOutcome α) >>= f) = DecOutcome.err := rfl

@[simp] theorem DecOutcome.hang_bind {α β : Type} (f : α → DecOutcome β) :
    ((DecOutcome.hang : DecOutcome α) >>= f) = DecOutcome.hang := rfl

@[simp] theorem DecOutcome.pure_eq_ok {α : Type} (a : α) :
    (pure a : DecOutcome α) = DecOutcome.ok a := rfl

@[simp] theorem ofOpt_some {α : Type} (a : α) : ofOpt (some a) = DecOutcome.ok a := rfl

@[simp] theorem ofOpt_none {α : Type} : ofOpt (none : Option α) = DecOutcome.err := rfl

/-! ## Claim theorems (decidable concrete cases) -/

/-- C1: the round trip decode(encode(T)) = T FAILS on the code for a
well-formed input: encoding the two-entry list twoTrackTLST (first
entry with filename "a", second all defaults) succeeds, but decoding
the produced bytes returns only the first entry.  The decoder's
early-stop check (line 181) fires after the first entry because the
first entry's string data ends exactly at end-of-buffer, silently
dropping the trailing entry. -/
theorem toTlst_fromTlst_drops_trailing_entry :
    (TLST.toTlst twoTrackTLST).isSome = true ∧
    TLST.fromTlst ((TLST.toTlst twoTrackTLST).getD []) = DecOutcome.ok ⟨[entryFnA]⟩ ∧
    TLST.fromTlst ((TLST.toTlst twoTrackTLST).getD []) ≠ DecOutcome.ok twoTrackTLST := by
  decide

/-- C3 counterexample: the decoder never verifies the magic (line 143
seeks past it): a buffer whose first four bytes are not "TLST" decodes
successfully, contradicting the claim that it fails with a FormatError. -/
theorem fromTlst_accepts_wrong_magic :
    badMagicBuf.take 4 ≠ [84, 76, 83, 84] ∧
    TLST.fromTlst badMagicBuf = DecOutcome.ok ⟨[]⟩ := by
  decide

/-- C4: on a buffer whose declared (non-sentinel) title offset 0 plus
stringsOffset 28 points outside the 28-byte buffer, the decoder does
not fail with an error: readNTString reads b"" at end-of-file forever,
so the decode diverges. -/
theorem fromTlst_oob_string_offset_hangs :
    oobBuf.length = 28 ∧
    unpackU16 (freadBytes oobBuf 10 2) = some 28 ∧
    unpackU16 (freadBytes oobBuf 22 2) = some 0 ∧
    TLST.fromTlst oobBuf = DecOutcome.hang := by
  decide

/-- C6 counterexample: a buffer declaring two entries but holding only
one complete record plus one junk byte does NOT decode to a truncated
track list: the position after the first entry (28) differs from the
buffer end (29), so the loop proceeds and the short read of the second
record raises struct.error, failing the decode. -/
theorem fromTlst_overdeclared_count_errs :
    unpackU32 (freadBytes overdeclaredBuf 4 4) = some 2 ∧
    overdeclaredBuf.length = 29 ∧
    TLST.fromTlst overdeclaredBuf = DecOutcome.err := by
  decide

/-- C8: encoding the scenario track list (one entry, songId=1, title
"Song A", filename "song_a.brstm") produces 48 = 12+16+13+7 bytes with
the header string-table offset 28, the stored filename offset 0 and the
stored title offset 13 (filename written before title). -/
theorem toTlst_single_entry_scenario :
    (TLST.toTlst scenarioTLST).isSome = true ∧
    ((TLST.toTlst scenarioTLST).getD []).length = 48 ∧
    bufU16 ((TLST.toTlst scenarioTLST).getD []) 10 = 28 ∧
    bufU16 ((TLST.toTlst scenarioTLST).getD []) 20 = 0 ∧
    bufU16 ((TLST.toTlst scenarioTLST).getD []) 22 = 13 := by
  decide

/-- C2 counterexample: a JSON entry object with songId present but
disablePinch absent does not decode to an entry with the default
disablePinch = false: dict_to_object raises KeyError at d["disablePinch"]
(line 72), modelled as none. -/
theorem dict_to_object_missing_disablePinch_raises :
    hasKey entryDictNoPinch "songId" = true ∧
    hasKey entryDictNoPinch "disablePinch" = false ∧
    (TLSTJsonDecoder.dict_to_object entryDictNoPinch).isNone = true := by
  decide

/-! ## C3: buffers shorter than the 12-byte header always fail -/

/-- C3 (amended): the decoder does not verify the magic (see the
counterexample fromTlst_accepts_wrong_magic); the surviving half of the
claim holds: decoding any buffer shorter than the 12-byte fixed header
raises struct.error (the 4-byte count read at offset 4 or the 2-byte
string-offset read at offset 10 comes back short). -/
theorem fromTlst_short_buffer_err (buf : List Nat) (h : buf.length < 12) :
    TLST.fromTlst buf = DecOutcome.err := by
  cases h4 : unpackU32 (freadBytes buf 4 4) with
  | none => simp [TLST.fromTlst, h4]
  | some n =>
      have h10 : unpackU16 (freadBytes buf 10 2) = none := by
        have hlen : (freadBytes buf 10 2).length < 2 := by
          simp only [freadBytes, List.length_take, List.length_drop]
          omega
        unfold unpackU16
        rw [if_neg]
        omega
      simp [TLST.fromTlst, h4, h10]

/-- C3 witness: the empty buffer is shorter than 12 bytes and fails. -/
theorem fromTlst_short_buffer_err_witness :
    TLST.fromTlst ([] : List Nat) = DecOutcome.err :=
  fromTlst_short_buffer_err [] (by decide)

/-! ## C6: the early stop, as the code implements it -/

/-- C6 (amended): decoding truncates instead of failing only in the
precise case the code checks: after reading an entry the file position
equals the end of the buffer; then the loop breaks, returning the
entries read so far even though fewer than the declared count were
read.  (When a truncation does not land exactly on end-of-buffer, the
next record read fails and the decode errors, see
fromTlst_overdeclared_count_errs.) -/
theorem decodeLoop_early_stop_truncates (buf : List Nat) (so x k : Nat)
    (e : TLSTEntry) (p : Nat)
    (h1 : readEntry buf so x = DecOutcome.ok (e, p)) (h2 : p = buf.length) :
    decodeLoop buf so x (k + 1) = DecOutcome.ok [e] := by
  simp [decodeLoop, h1, h2]

/-- C6 witness: on the 44-byte buffer declaring five entries with two
records present, the loop entered at index 1 with four iterations left
stops right after entry 1 because the position 44 is the buffer end. -/
theorem decodeLoop_early_stop_truncates_witness :
    decodeLoop earlyStopBuf 44 1 4 = DecOutcome.ok [TLSTEntry.init] :=
  decodeLoop_early_stop_truncates earlyStopBuf 44 1 3 TLSTEntry.init 44
    (by decide) (by decide)

/-! ## C2: all nine fields are required by dict_to_object -/

/-- C2 (amended): JSON decoding does not default a missing
"disablePinch".  For any entry object (a dict containing the key
"songId") that lacks the key "disablePinch", dict_to_object raises
KeyError at d["disablePinch"] (line 72, modelled as none) instead of
producing an entry with disablePinch = false. -/
theorem dict_to_object_requires_disablePinch (d : List (String × PyVal))
    (h1 : hasKey d "songId" = true) (h2 : hasKey d "disablePinch" = false) :
    TLSTJsonDecoder.dict_to_object d = none := by
  have hlf : lookupField d "disablePinch" = none := by
    unfold lookupField
    rw [List.find?_eq_none.mpr]
    · rfl
    · intro p hp
      have := (List.any_eq_false.mp h2) p hp
      simpa using this
  unfold TLSTJsonDecoder.dict_to_object
  rw [if_pos (by simp [h1])]
  cases hs1 : lookupField d "songId" >>= asInt with
  | none => simp [hs1]
  | some a1 =>
    cases hs2 : lookupField d "delay" >>= asInt with
    | none => simp [hs1, hs2]
    | some a2 =>
      cases hs3 : lookupField d "volume" >>= asInt with
      | none => simp [hs1, hs2, hs3]
      | some a3 =>
        cases hs4 : lookupField d "frequency" >>= asInt with
        | none => simp [hs1, hs2, hs3, hs4]
        | some a4 =>
          cases hs5 : lookupField d "switch" >>= asInt with
          | none => simp [hs1, hs2, hs3, hs4, hs5]
          | some a5 =>
            simp [hs1, hs2, hs3, hs4, hs5, hlf]

/-- C2 witness: the amended claim applied to the concrete entry object
with disablePinch absent. -/
theorem dict_to_object_requires_disablePinch_witness :
    TLSTJsonDecoder.dict_to_object entryDictNoPinch = none :=
  dict_to_object_requires_disablePinch entryDictNoPinch (by decide) (by decide)

/-! ## C7: the JSON round trip -/

/-- The object hook turns the serialized form of one entry back into
that entry: every one of the nine emitted fields is read back. -/
theorem applyHook_serializeEntry (e : TLSTEntry) :
    applyHook (serializeEntry e) = some (.entryObj e) := by
  simp [serializeEntry, applyHook, applyHookFields, TLSTJsonDecoder.dict_to_object,
        hasKey, lookupField, asInt, asBool, asStr]

theorem applyHookList_serialized (ts : List TLSTEntry) :
    applyHookList (ts.map serializeEntry) = some (ts.map PyVal.entryObj) := by
  induction ts with
  | nil => rfl
  | cons e rest ih => simp [applyHookList, applyHook_serializeEntry, ih]

theorem mapM_loop_asEntry_map (ts : List TLSTEntry) (acc : List TLSTEntry) :
    List.mapM.loop asEntry (ts.map PyVal.entryObj) acc = some (acc.reverse ++ ts) := by
  induction ts generalizing acc with
  | nil => simp [List.mapM.loop]
  | cons e rest ih => simp [List.mapM.loop, asEntry, ih]

theorem mapM_asEntry_map (ts : List TLSTEntry) :
    (ts.map PyVal.entryObj).mapM asEntry = some ts := by
  simp [List.mapM, mapM_loop_asEntry_map]

/-- C7: the JSON round trip is lossless.  Serializing any TLST emits the
entries in order with all nine fields of each entry (including empty
strings), and running the decoder's object hook over the emitted
document yields the same TLST object back. -/
theorem serialize_applyHook_roundtrip (t : TLST) :
    applyHook (serializeTLST t) = some (PyVal.tlstObj t) := by
  simp [serializeTLST, applyHook, applyHookFields,
        applyHookList_serialized, TLSTJsonDecoder.dict_to_object, hasKey,
        lookupField, asList, mapM_loop_asEntry_map]

/-! ## C9: termination behaviour of readNTString and the decoder -/

theorem scanNul_eq_none_iff (l : List Nat) :
    scanNul l = none ↔ ∀ j : Nat, l[j]? ≠ some 0 := by
  induction l with
  | nil => simp [scanNul]
  | cons c rest ih =>
    by_cases hc : c = 0
    · subst hc
      simp only [scanNul, if_pos rfl]
      constructor
      · intro h; cases h
      · intro h; exact (h 0 (by simp)).elim
    · simp only [scanNul, if_neg hc]
      constructor
      · intro h j
        have hrest : scanNul rest = none := by
          cases hr : scanNul rest with
          | none => rfl
          | some p => rw [hr] at h; cases h
        cases j with
        | zero => simpa using hc
        | succ j => simpa using (ih.mp hrest) j
      · intro h
        have hrest : ∀ j : Nat, rest[j]? ≠ some 0 := by
          intro j
          simpa using h (j + 1)
        rw [ih.mpr hrest]
        rfl

theorem scanNul_some_spec (l : List Nat) (i : Nat) (h : l[i]? = some 0)
    (hmin : ∀ j, j < i → l[j]? ≠ some 0) :
    scanNul l = some (l.take i, i + 1) := by
  induction l generalizing i with
  | nil => simp at h
  | cons c rest ih =>
    cases i with
    | zero =>
      have : c = 0 := by simpa using h
      subst this
      simp [scanNul]
    | succ i =>
      have hc : c ≠ 0 := by
        intro hc
        exact hmin 0 (Nat.succ_pos i) (by simpa using hc)
      have h' : rest[i]? = some 0 := by simpa using h
      have hmin' : ∀ j, j < i → rest[j]? ≠ some 0 := by
        intro j hj
        simpa using hmin (j + 1) (by omega)
      simp [scanNul, if_neg hc, ih i h' hmin', List.take_succ_cons]

theorem readNTString_spec_of_min (buf : List Nat) (pos i : Nat) (h1 : pos ≤ i)
    (h2 : buf[i]? = some 0) (h3 : ∀ j, pos ≤ j → j < i → buf[j]? ≠ some 0) :
    readNTString buf pos =
      if validUTF8 ((buf.drop pos).take (i - pos)) = true
      then DecOutcome.ok ((buf.drop pos).take (i - pos), i + 1)
      else DecOutcome.err := by
  have hd : (buf.drop pos)[i - pos]? = some 0 := by
    rw [List.getElem?_drop]
    rwa [Nat.add_sub_cancel' h1]
  have hdmin : ∀ j, j < i - pos → (buf.drop pos)[j]? ≠ some 0 := by
    intro j hj
    rw [List.getElem?_drop]
    exact h3 (pos + j) (by omega) (by omega)
  rw [readNTString, scanNul_some_spec (buf.drop pos) (i - pos) hd hdmin]
  have e : pos + (i - pos + 1) = i + 1 := by omega
  simp [e]

theorem readNTString_ne_hang_iff (buf : List Nat) (pos : Nat) :
    (∃ i, pos ≤ i ∧ buf[i]? = some 0) ↔ readNTString buf pos ≠ DecOutcome.hang := by
  constructor
  · intro ⟨i, hpos, hi⟩
    have hne : scanNul (buf.drop pos) ≠ none := by
      intro hn
      have := (scanNul_eq_none_iff (buf.drop pos)).mp hn (i - pos)
      rw [List.getElem?_drop, Nat.add_sub_cancel' hpos] at this
      exact this hi
    rw [readNTString]
    cases hs : scanNul (buf.drop pos) with
    | none => exact (hne hs).elim
    | some p =>
      split
      · simp_all
      · split <;> simp
  · intro hne
    by_contra hno
    have hall : ∀ j : Nat, (buf.drop pos)[j]? ≠ some 0 := by
      intro j hj
      rw [List.getElem?_drop] at hj
      exact hno ⟨pos + j, by omega, hj⟩
    have hnone : scanNul (buf.drop pos) = none := (scanNul_eq_none_iff _).mpr hall
    apply hne
    rw [readNTString, hnone]

theorem readNTString_hang_of_no_nul (buf : List Nat) (pos : Nat)
    (h : ∀ i, pos ≤ i → buf[i]? ≠ some 0) :
    readNTString buf pos = DecOutcome.hang := by
  rw [readNTString]
  have : scanNul (buf.drop pos) = none := by
    rw [scanNul_eq_none_iff]
    intro j
    rw [List.getElem?_drop]
    exact h (pos + j) (by omega)
  rw [this]

theorem DecOutcome.bind_ne_hang {α β : Type} {m : DecOutcome α} {f : α → DecOutcome β}
    (hm : m ≠ DecOutcome.hang) (hf : ∀ a, m = DecOutcome.ok a → f a ≠ DecOutcome.hang) :
    (m >>= f) ≠ DecOutcome.hang := by
  cases m with
  | ok a => simpa using hf a rfl
  | err => simp
  | hang => exact (hm rfl).elim

theorem ofOpt_ne_hang {α : Type} (o : Option α) : ofOpt o ≠ DecOutcome.hang := by
  cases o <;> simp

theorem ofOpt_eq_ok {α : Type} {o : Option α} {a : α} (h : ofOpt o = DecOutcome.ok a) :
    o = some a := by
  cases o with
  | none => cases h
  | some b => cases h; rfl

theorem readEntry_no_hang (buf : List Nat) (so x : Nat)
    (H : ∀ o : Nat, (unpackU16 (freadBytes buf (x * 16 + 12 + 8) 2) = some o ∨
                     unpackU16 (freadBytes buf (x * 16 + 12 + 10) 2) = some o) →
         o ≠ 65535 → ∃ i, o + so ≤ i ∧ buf[i]? = some 0) :
    readEntry buf so x ≠ DecOutcome.hang := by
  simp only [readEntry]
  refine DecOutcome.bind_ne_hang (ofOpt_ne_hang _) (fun songId h1 => ?_)
  refine DecOutcome.bind_ne_hang (ofOpt_ne_hang _) (fun delay h2 => ?_)
  refine DecOutcome.bind_ne_hang (ofOpt_ne_hang _) (fun volume h3 => ?_)
  refine DecOutcome.bind_ne_hang (ofOpt_ne_hang _) (fun frequency h4 => ?_)
  refine DecOutcome.bind_ne_hang (ofOpt_ne_hang _) (fun filenameOffset h5 => ?_)
  refine DecOutcome.bind_ne_hang (ofOpt_ne_hang _) (fun titleOffset h6 => ?_)
  refine DecOutcome.bind_ne_hang (ofOpt_ne_hang _) (fun sw h7 => ?_)
  refine DecOutcome.bind_ne_hang (ofOpt_ne_hang _) (fun dp h8 => ?_)
  refine DecOutcome.bind_ne_hang (ofOpt_ne_hang _) (fun dti h9 => ?_)
  by_cases ht : titleOffset = 65535
  · rw [if_neg (fun hc => hc ht)]
    simp only [DecOutcome.pure_eq_ok, DecOutcome.ok_bind]
    by_cases hfn : filenameOffset = 65535
    · rw [if_neg (fun hc => hc hfn)]
      simp
    · rw [if_pos hfn]
      obtain ⟨i, hi1, hi2⟩ := H filenameOffset (Or.inl (ofOpt_eq_ok h5)) hfn
      refine DecOutcome.bind_ne_hang
        ((readNTString_ne_hang_iff buf (filenameOffset + so)).mp ⟨i, hi1, hi2⟩)
        (fun fp hfp => ?_)
      simp
  · rw [if_pos ht]
    obtain ⟨i, hi1, hi2⟩ := H titleOffset (Or.inr (ofOpt_eq_ok h6)) ht
    refine DecOutcome.bind_ne_hang
      ((readNTString_ne_hang_iff buf (titleOffset + so)).mp ⟨i, hi1, hi2⟩)
      (fun tp htp => ?_)
    by_cases hfn : filenameOffset = 65535
    · rw [if_neg (fun hc => hc hfn)]
      simp
    · rw [if_pos hfn]
      obtain ⟨i2, hi21, hi22⟩ := H filenameOffset (Or.inl (ofOpt_eq_ok h5)) hfn
      refine DecOutcome.bind_ne_hang
        ((readNTString_ne_hang_iff buf (filenameOffset + so)).mp ⟨i2, hi21, hi22⟩)
        (fun fp hfp => ?_)
      simp

theorem decodeLoop_no_hang (buf : List Nat) (so : Nat) :
    ∀ k x, (∀ y, x ≤ y → y < x + k →
        ∀ o : Nat, (unpackU16 (freadBytes buf (y * 16 + 12 + 8) 2) = some o ∨
                    unpackU16 (freadBytes buf (y * 16 + 12 + 10) 2) = some o) →
        o ≠ 65535 → ∃ i, o + so ≤ i ∧ buf[i]? = some 0) →
    decodeLoop buf so x k ≠ DecOutcome.hang := by
  intro k
  induction k with
  | zero =>
    intro x H
    simp [decodeLoop]
  | succ k ih =>
    intro x H
    simp only [decodeLoop]
    refine DecOutcome.bind_ne_hang
      (readEntry_no_hang buf so x (fun o ho hne => H x le_rfl (by omega) o ho hne))
      (fun ep hep => ?_)
    by_cases hlen : ep.2 = buf.length
    · simp [hlen]
    · rw [if_neg hlen]
      refine DecOutcome.bind_ne_hang
        (ih (x + 1) (fun y hy1 hy2 => H y (by omega) (by omega)))
        (fun rest hrest => ?_)
      simp

theorem fromTlst_no_hang (buf : List Nat)
    (H : ∀ n so, unpackU32 (freadBytes buf 4 4) = some n →
        unpackU16 (freadBytes buf 10 2) = some so →
        ∀ x, x < n → ∀ o : Nat,
          (unpackU16 (freadBytes buf (x * 16 + 12 + 8) 2) = some o ∨
           unpackU16 (freadBytes buf (x * 16 + 12 + 10) 2) = some o) →
          o ≠ 65535 → ∃ i, o + so ≤ i ∧ buf[i]? = some 0) :
    TLST.fromTlst buf ≠ DecOutcome.hang := by
  simp only [TLST.fromTlst]
  refine DecOutcome.bind_ne_hang (ofOpt_ne_hang _) (fun n hn => ?_)
  refine DecOutcome.bind_ne_hang (ofOpt_ne_hang _) (fun so hso => ?_)
  refine DecOutcome.bind_ne_hang
    (decodeLoop_no_hang buf so n 0
      (fun y hy1 hy2 => H n so (ofOpt_eq_ok hn) (ofOpt_eq_ok hso) y (by omega)))
    (fun es hes => ?_)
  simp

/-- C9 counterexample: on the buffer [192, 0], a NUL terminator exists
at index 1, so the loop terminates, but the collected byte 0xC0 is not
valid UTF-8: data.decode("utf-8") at line 89 raises UnicodeDecodeError,
so readNTString terminates by exception instead of returning the bytes
before the NUL. -/
theorem readNTString_invalid_utf8_raises :
    [192, 0][1]? = some 0 ∧
    validUTF8 [192] = false ∧
    readNTString [192, 0] 0 = DecOutcome.err ∧
    readNTString [192, 0] 0 ≠ DecOutcome.ok ([192], 2) := by
  decide

/-- C9 (amended): readNTString terminates — by returning or by raising
UnicodeDecodeError — if and only if a 0x00 byte occurs at or after the
read position before end-of-buffer.  When the first such 0x00 is at
index i, it returns the bytes strictly before it (with the position
just past the terminator) when those bytes are valid UTF-8, and raises
UnicodeDecodeError otherwise.  Consequently the binary decode cannot
hang on any buffer in which, whenever the header parses to an entry
count n and a strings offset so, every non-sentinel title/filename
offset o parsed from a record slot with index below n has a NUL at or
after position so + o. -/
theorem readNTString_decode_termination :
    (∀ (buf : List Nat) (pos : Nat),
        (∃ i, pos ≤ i ∧ buf[i]? = some 0) ↔
          readNTString buf pos ≠ DecOutcome.hang) ∧
    (∀ (buf : List Nat) (pos i : Nat), pos ≤ i → buf[i]? = some 0 →
        (∀ j, pos ≤ j → j < i → buf[j]? ≠ some 0) →
        readNTString buf pos =
          if validUTF8 ((buf.drop pos).take (i - pos)) = true
          then DecOutcome.ok ((buf.drop pos).take (i - pos), i + 1)
          else DecOutcome.err) ∧
    (∀ buf : List Nat,
        (∀ n so, unpackU32 (freadBytes buf 4 4) = some n →
            unpackU16 (freadBytes buf 10 2) = some so →
            ∀ x, x < n → ∀ o : Nat,
              (unpackU16 (freadBytes buf (x * 16 + 12 + 8) 2) = some o ∨
               unpackU16 (freadBytes buf (x * 16 + 12 + 10) 2) = some o) →
              o ≠ 65535 → ∃ i, o + so ≤ i ∧ buf[i]? = some 0) →
        TLST.fromTlst buf ≠ DecOutcome.hang) :=
  ⟨readNTString_ne_hang_iff, readNTString_spec_of_min, fromTlst_no_hang⟩

/-- C9 witness: on the buffer [65, 0] from position 0, the NUL at index
1 exists and the byte 65 is valid UTF-8, so the theorem yields the
returning result ([65], 2). -/
theorem readNTString_decode_termination_witness :
    readNTString [65, 0] 0 = DecOutcome.ok ([65], 2) := by
  have h := readNTString_decode_termination.2.1 [65, 0] 0 1 (by omega) (by decide)
    (fun j hj1 hj2 => by
      have : j = 0 := by omega
      subst this
      decide)
  rw [h]
  decide

/-! ## C10: the encoder never mutates self.tracks -/

theorem writeRecord_tracks {s s' : EncState} {e : TLSTEntry}
    (h : writeRecord s e = some s') : s'.tracks = s.tracks := by
  simp only [writeRecord, Option.bind_eq_bind, Option.bind_eq_some, Option.pure_def,
    Option.some.injEq] at h
  obtain ⟨b1, -, b2, -, b3, -, b4, -, b5, -, b6, -, b7, -, hfin⟩ := h
  subst hfin
  rfl

theorem foldlM_writeRecord_tracks :
    ∀ (l : List TLSTEntry) (s s' : EncState),
      List.foldlM writeRecord s l = some s' → s'.tracks = s.tracks := by
  intro l
  induction l with
  | nil =>
    intro s s' h
    simp only [List.foldlM, Option.pure_def, Option.some.injEq] at h
    subst h
    rfl
  | cons e rest ih =>
    intro s s' h
    simp only [List.foldlM, Option.bind_eq_bind, Option.bind_eq_some] at h
    obtain ⟨s1, h1, h2⟩ := h
    have := ih s1 s' (by simpa [List.foldlM] using h2)
    rw [this, writeRecord_tracks h1]

theorem writeStringsStep_tracks {so x : Nat} {s s' : EncState}
    (h : writeStringsStep so x s = some s') : s'.tracks = s.tracks := by
  simp only [writeStringsStep, Option.bind_eq_bind, Option.bind_eq_some,
    Option.pure_def] at h
  obtain ⟨entry, -, h⟩ := h
  repeat' split at h
  all_goals
    repeat
      rw [Option.bind_eq_some] at h
      obtain ⟨_, heq, h⟩ := h
      try simp only [Option.some.injEq] at heq
      try subst heq
  all_goals
    simp only [Option.some.injEq] at h
    subst h
    rfl

theorem writeStringsFrom_tracks {so : Nat} :
    ∀ (k x : Nat) (s s' : EncState),
      writeStringsFrom so x k s = some s' → s'.tracks = s.tracks := by
  intro k
  induction k with
  | zero =>
    intro x s s' h
    simp only [writeStringsFrom, Option.some.injEq] at h
    subst h
    rfl
  | succ k ih =>
    intro x s s' h
    simp only [writeStringsFrom, Option.bind_eq_bind, Option.bind_eq_some] at h
    obtain ⟨s1, h1, h2⟩ := h
    rw [ih (x + 1) s1 s' h2, writeStringsStep_tracks h1]

/-- C10: binary encoding is read-only on its input.  Modelling self as
part of the encoder state, every successful run of toTlst leaves the
tracks list of the final state exactly equal to the input track list:
all offset bookkeeping happens in the output buffer and the seek
position only. -/
theorem toTlstProc_preserves_tracks (t : TLST) (s' : EncState)
    (h : t.toTlstProc = some s') : s'.tracks = t.tracks := by
  simp only [TLST.toTlstProc, Option.bind_eq_bind, Option.bind_eq_some, Option.pure_def,
    Option.some.injEq] at h
  obtain ⟨cb, -, s4, h4, s5, h5, bt, -, bso, -, hfin⟩ := h
  subst hfin
  show s5.tracks = t.tracks
  rw [writeStringsFrom_tracks _ _ _ _ h5, foldlM_writeRecord_tracks _ _ _ h4]
  rfl

/-- C10 witness: encoding the empty track list reaches the final state
with buffer [84,76,83,84,0,0,0,0,0,12,0,12], and its tracks component
is the (empty) input list. -/
theorem toTlstProc_preserves_tracks_witness :
    (⟨[], [84, 76, 83, 84, 0, 0, 0, 0, 0, 12, 0, 12], 12⟩ : EncState).tracks =
      (⟨[]⟩ : TLST).tracks :=
  toTlstProc_preserves_tracks ⟨[]⟩ ⟨[], [84, 76, 83, 84, 0, 0, 0, 0, 0, 12, 0, 12], 12⟩
    (by decide)

/-! ## storeBytes region lemmas (for C5) -/

theorem storeBytes_length (buf : List Nat) (pos : Nat) (bs : List Nat) :
    (storeBytes buf pos bs).length = max buf.length (pos + bs.length) := by
  simp [storeBytes]
  omega

theorem storeBytes_getD_before {buf : List Nat} {pos : Nat} {bs : List Nat} {i : Nat}
    (h : i < pos) :
    (storeBytes buf pos bs).getD i 0 = buf.getD i 0 := by
  have hA : (buf.take pos ++ List.replicate (pos - buf.length) (0 : Nat)).length = pos := by
    rw [List.length_append, List.length_take, List.length_replicate]
    omega
  have hlt : i < (buf.take pos ++ List.replicate (pos - buf.length) (0 : Nat)).length := by
    rw [hA]
    exact h
  have e1 : (storeBytes buf pos bs)[i]? =
      (buf.take pos ++ List.replicate (pos - buf.length) 0)[i]? := by
    unfold storeBytes
    exact List.getElem?_append_left hlt
  rw [List.getD_eq_getElem?_getD, List.getD_eq_getElem?_getD, e1]
  rcases Nat.lt_or_ge i buf.length with hi | hi
  · rw [List.getElem?_append_left (by rw [List.length_take]; omega),
      List.getElem?_take_of_lt h]
  · rw [List.getElem?_append_right (by rw [List.length_take]; omega),
      List.getElem?_replicate, if_pos (by rw [List.length_take]; omega),
      List.getElem?_eq_none (l := buf) (by omega)]
    rfl

theorem storeBytes_getD_at {buf : List Nat} {pos : Nat} {bs : List Nat} {i : Nat}
    (h1 : pos ≤ i) (h2 : i < pos + bs.length) :
    (storeBytes buf pos bs).getD i 0 = bs.getD (i - pos) 0 := by
  have hA : (buf.take pos ++ List.replicate (pos - buf.length) (0 : Nat)).length = pos := by
    rw [List.length_append, List.length_take, List.length_replicate]
    omega
  have e1 : (storeBytes buf pos bs)[i]? =
      (bs ++ buf.drop (pos + bs.length))[i - pos]? := by
    unfold storeBytes
    rw [List.getElem?_append_right (by rw [hA]; omega), hA]
  rw [List.getD_eq_getElem?_getD, List.getD_eq_getElem?_getD, e1,
    List.getElem?_append_left (by omega)]

theorem storeBytes_getD_after {buf : List Nat} {pos : Nat} {bs : List Nat} {i : Nat}
    (h : pos + bs.length ≤ i) :
    (storeBytes buf pos bs).getD i 0 = buf.getD i 0 := by
  have hA : (buf.take pos ++ List.replicate (pos - buf.length) (0 : Nat)).length = pos := by
    rw [List.length_append, List.length_take, List.length_replicate]
    omega
  have e1 : (storeBytes buf pos bs)[i]? =
      (bs ++ buf.drop (pos + bs.length))[i - pos]? := by
    unfold storeBytes
    rw [List.getElem?_append_right (by rw [hA]; omega), hA]
  rw [List.getD_eq_getElem?_getD, List.getD_eq_getElem?_getD, e1,
    List.getElem?_append_right (by omega), List.getElem?_drop]
  have e2 : pos + bs.length + (i - pos - bs.length) = i := by omega
  rw [e2]

/-- Effect of one "write string + NUL, back-patch the 2-byte offset at
slot q, return to the end" block of the string loop, for a base state
whose buffer ends at the seek position and whose patch slot lies before
the current position. -/
theorem writeBlock_spec (t : EncState) (c : List Nat) (q : Nat) (b : List Nat) (r : EncState)
    (hr : r = fseek (fwrite (fseek (fwrite (fwrite t c) [0]) q) b) ((fwrite (fwrite t c) [0]).pos))
    (hb : b.length = 2) (hq : q + 2 ≤ t.pos) (hlen : t.buf.length = t.pos) :
    r.pos = t.pos + c.length + 1 ∧
    r.buf.length = t.pos + c.length + 1 ∧
    r.tracks = t.tracks ∧
    (∀ i, i < t.pos → ¬ (q ≤ i ∧ i ≤ q + 1) → r.buf.getD i 0 = t.buf.getD i 0) ∧
    r.buf.getD q 0 = b.getD 0 0 ∧
    r.buf.getD (q + 1) 0 = b.getD 1 0 := by
  subst hr
  have hB1 : (storeBytes t.buf t.pos c).length = t.pos + c.length := by
    rw [storeBytes_length]
    omega
  have hB2 : (storeBytes (storeBytes t.buf t.pos c) (t.pos + c.length) [0]).length =
      t.pos + c.length + 1 := by
    rw [storeBytes_length, hB1]
    simp
  refine ⟨by simp [fseek, fwrite], ?_, rfl, ?_, ?_, ?_⟩
  · simp only [fseek, fwrite]
    rw [storeBytes_length, hB2, hb]
    omega
  · intro i hi hq2
    simp only [fseek, fwrite]
    rcases Nat.lt_or_ge i q with hiq | hiq
    · rw [storeBytes_getD_before hiq, storeBytes_getD_before (by omega),
        storeBytes_getD_before (by omega)]
    · have hiq2 : q + b.length ≤ i := by omega
      rw [storeBytes_getD_after hiq2, storeBytes_getD_before (by omega),
        storeBytes_getD_before (by omega)]
  · simp only [fseek, fwrite]
    rw [storeBytes_getD_at (le_refl q) (by omega)]
    simp
  · simp only [fseek, fwrite]
    rw [storeBytes_getD_at (by omega) (by omega)]
    simp

theorem packU16_sub_spec {a b : Nat} {bs : List Nat} (hab : b ≤ a)
    (h : packU16 ((a : Int) - (b : Int)) = some bs) :
    a - b < 65536 ∧ bs = [(a - b) / 256, (a - b) % 256] := by
  unfold packU16 at h
  split at h
  · rename_i hc
    injection h with h
    have htn : ((a : Int) - (b : Int)).toNat = a - b := by omega
    refine ⟨by omega, ?_⟩
    rw [← h, htn]
  · cases h

/-- One string-loop iteration preserves the file invariant and extends
the slot facts to the entry just processed. -/
theorem writeStringsStep_slots {so x : Nat} {s s' : EncState}
    (hstep : writeStringsStep so x s = some s')
    (hinv : EncInv so s) (hso : so = 12 + 16 * s.tracks.length)
    (hx : x < s.tracks.length)
    (hslots : SlotsOk s.tracks so x s) :
    EncInv so s' ∧ s.pos ≤ s'.pos ∧ SlotsOk s.tracks so (x + 1) s' := by
  obtain ⟨hlen, hsole⟩ := hinv
  simp only [writeStringsStep, Option.bind_eq_bind, Option.bind_eq_some,
    Option.pure_def] at hstep
  obtain ⟨entry, hent, hstep⟩ := hstep
  have hget : s.tracks[x]? = some (s.tracks.get ⟨x, hx⟩) := by
    rw [List.getElem?_eq_getElem hx]
    simp [List.get_eq_getElem]
  rw [hget] at hent
  injection hent with hent
  subst hent
  split at hstep
  · -- filename non-empty
    rename_i hfn
    rw [Option.bind_eq_some] at hstep
    obtain ⟨bF, heqF, hstep⟩ := hstep
    rw [Option.bind_eq_some] at hstep
    obtain ⟨sF, hsF, hstep⟩ := hstep
    simp only [Option.some.injEq] at hsF
    subst hsF
    obtain ⟨hvF, hbF⟩ := packU16_sub_spec hsole heqF
    subst hbF
    obtain ⟨hFpos, hFlen, hFtr, hFold, hFq0, hFq1⟩ :=
      writeBlock_spec s (s.tracks.get ⟨x, hx⟩).filename (x * 16 + 12 + 8)
        [(s.pos - so) / 256, (s.pos - so) % 256] _ rfl rfl (by omega) hlen
    have hfn1 : 1 ≤ (s.tracks.get ⟨x, hx⟩).filename.length := List.length_pos.mpr hfn
    split at hstep
    · -- title non-empty
      rename_i htt
      rw [Option.bind_eq_some] at hstep
      obtain ⟨bT, heqT, hstep⟩ := hstep
      rw [Option.bind_eq_some] at hstep
      obtain ⟨sT, hsT, hstep⟩ := hstep
      simp only [Option.some.injEq] at hsT
      subst hsT
      simp only [Option.some.injEq] at hstep
      subst hstep
      rw [hFpos] at heqT
      have htt1 : 1 ≤ (s.tracks.get ⟨x, hx⟩).title.length := List.length_pos.mpr htt
      have hsoF : so ≤ s.pos + (s.tracks.get ⟨x, hx⟩).filename.length + 1 := by omega
      obtain ⟨hvT, hbT⟩ := packU16_sub_spec hsoF heqT
      subst hbT
      obtain ⟨hTpos, hTlen, hTtr, hTold, hTq0, hTq1⟩ :=
        writeBlock_spec _ (s.tracks.get ⟨x, hx⟩).title (x * 16 + 12 + 10)
          [(s.pos + (s.tracks.get ⟨x, hx⟩).filename.length + 1 - so) / 256,
           (s.pos + (s.tracks.get ⟨x, hx⟩).filename.length + 1 - so) % 256] _ rfl rfl
          (by rw [hFpos]; omega) (by rw [hFlen, hFpos])
      refine ⟨⟨by rw [hTlen, hTpos, hFpos], by rw [hTpos, hFpos]; omega⟩,
        by rw [hTpos, hFpos]; omega, ?_⟩
      intro y hy hylen
      rcases Nat.lt_or_ge y x with hyx | hyx
      · obtain ⟨hold1, hold2⟩ := hslots y hyx hylen
        constructor
        · intro hne
          obtain ⟨v, hv1, hv2, hv3, hv4⟩ := hold1 hne
          refine ⟨v, hv1, by rw [hTpos, hFpos]; omega, ?_, ?_⟩
          · rw [hTold (y * 16 + 20) (by rw [hFpos]; omega) (by omega),
              hFold (y * 16 + 20) (by omega) (by omega)]
            exact hv3
          · rw [hTold (y * 16 + 21) (by rw [hFpos]; omega) (by omega),
              hFold (y * 16 + 21) (by omega) (by omega)]
            exact hv4
        · intro hne
          obtain ⟨v, hv1, hv2, hv3, hv4⟩ := hold2 hne
          refine ⟨v, hv1, by rw [hTpos, hFpos]; omega, ?_, ?_⟩
          · rw [hTold (y * 16 + 22) (by rw [hFpos]; omega) (by omega),
              hFold (y * 16 + 22) (by omega) (by omega)]
            exact hv3
          · rw [hTold (y * 16 + 23) (by rw [hFpos]; omega) (by omega),
              hFold (y * 16 + 23) (by omega) (by omega)]
            exact hv4
      · have hyx' : y = x := by omega
        subst hyx'
        constructor
        · intro _
          refine ⟨s.pos - so, hvF, by rw [hTpos, hFpos]; omega, ?_, ?_⟩
          · have e : y * 16 + 20 = y * 16 + 12 + 8 := by omega
            rw [e, hTold (y * 16 + 12 + 8) (by rw [hFpos]; omega) (by omega), hFq0]
            simp
          · have e : y * 16 + 21 = y * 16 + 12 + 8 + 1 := by omega
            rw [e, hTold (y * 16 + 12 + 8 + 1) (by rw [hFpos]; omega) (by omega), hFq1]
            simp
        · intro _
          refine ⟨s.pos + (s.tracks.get ⟨y, hx⟩).filename.length + 1 - so, hvT,
            by rw [hTpos, hFpos]; omega, ?_, ?_⟩
          · have e : y * 16 + 22 = y * 16 + 12 + 10 := by omega
            rw [e, hTq0]
            simp
          · have e : y * 16 + 23 = y * 16 + 12 + 10 + 1 := by omega
            rw [e, hTq1]
            simp
    · -- title empty
      rename_i htt
      rw [Option.bind_eq_some] at hstep
      obtain ⟨sT, hsT, hstep⟩ := hstep
      simp only [Option.some.injEq] at hsT
      subst hsT
      simp only [Option.some.injEq] at hstep
      subst hstep
      refine ⟨⟨by rw [hFlen, hFpos], by rw [hFpos]; omega⟩, by rw [hFpos]; omega, ?_⟩
      intro y hy hylen
      rcases Nat.lt_or_ge y x with hyx | hyx
      · obtain ⟨hold1, hold2⟩ := hslots y hyx hylen
        constructor
        · intro hne
          obtain ⟨v, hv1, hv2, hv3, hv4⟩ := hold1 hne
          refine ⟨v, hv1, by rw [hFpos]; omega, ?_, ?_⟩
          · rw [hFold (y * 16 + 20) (by omega) (by omega)]
            exact hv3
          · rw [hFold (y * 16 + 21) (by omega) (by omega)]
            exact hv4
        · intro hne
          obtain ⟨v, hv1, hv2, hv3, hv4⟩ := hold2 hne
          refine ⟨v, hv1, by rw [hFpos]; omega, ?_, ?_⟩
          · rw [hFold (y * 16 + 22) (by omega) (by omega)]
            exact hv3
          · rw [hFold (y * 16 + 23) (by omega) (by omega)]
            exact hv4
      · have hyx' : y = x := by omega
        subst hyx'
        constructor
        · intro _
          refine ⟨s.pos - so, hvF, by rw [hFpos]; omega, ?_, ?_⟩
          · have e : y * 16 + 20 = y * 16 + 12 + 8 := by omega
            rw [e, hFq0]
            simp
          · have e : y * 16 + 21 = y * 16 + 12 + 8 + 1 := by omega
            rw [e, hFq1]
            simp
        · intro ht
          exact (htt ht).elim
  · -- filename empty
    rename_i hfn
    rw [Option.bind_eq_some] at hstep
    obtain ⟨sB, hsB, hstep⟩ := hstep
    simp only [Option.some.injEq] at hsB
    subst hsB
    split at hstep
    · -- title non-empty
      rename_i htt
      rw [Option.bind_eq_some] at hstep
      obtain ⟨bT, heqT, hstep⟩ := hstep
      rw [Option.bind_eq_some] at hstep
      obtain ⟨sT, hsT, hstep⟩ := hstep
      simp only [Option.some.injEq] at hsT
      subst hsT
      simp only [Option.some.injEq] at hstep
      subst hstep
      have htt1 : 1 ≤ (s.tracks.get ⟨x, hx⟩).title.length := List.length_pos.mpr htt
      obtain ⟨hvT, hbT⟩ := packU16_sub_spec hsole heqT
      subst hbT
      obtain ⟨hTpos, hTlen, hTtr, hTold, hTq0, hTq1⟩ :=
        writeBlock_spec s (s.tracks.get ⟨x, hx⟩).title (x * 16 + 12 + 10)
          [(s.pos - so) / 256, (s.pos - so) % 256] _ rfl rfl (by omega) hlen
      refine ⟨⟨by rw [hTlen, hTpos], by rw [hTpos]; omega⟩, by rw [hTpos]; omega, ?_⟩
      intro y hy hylen
      rcases Nat.lt_or_ge y x with hyx | hyx
      · obtain ⟨hold1, hold2⟩ := hslots y hyx hylen
        constructor
        · intro hne
          obtain ⟨v, hv1, hv2, hv3, hv4⟩ := hold1 hne
          refine ⟨v, hv1, by rw [hTpos]; omega, ?_, ?_⟩
          · rw [hTold (y * 16 + 20) (by omega) (by omega)]
            exact hv3
          · rw [hTold (y * 16 + 21) (by omega) (by omega)]
            exact hv4
        · intro hne
          obtain ⟨v, hv1, hv2, hv3, hv4⟩ := hold2 hne
          refine ⟨v, hv1, by rw [hTpos]; omega, ?_, ?_⟩
          · rw [hTold (y * 16 + 22) (by omega) (by omega)]
            exact hv3
          · rw [hTold (y * 16 + 23) (by omega) (by omega)]
            exact hv4
      · have hyx' : y = x := by omega
        subst hyx'
        constructor
        · intro hf
          exact (hfn hf).elim
        · intro _
          refine ⟨s.pos - so, hvT, by rw [hTpos]; omega, ?_, ?_⟩
          · have e : y * 16 + 22 = y * 16 + 12 + 10 := by omega
            rw [e, hTq0]
            simp
          · have e : y * 16 + 23 = y * 16 + 12 + 10 + 1 := by omega
            rw [e, hTq1]
            simp
    · -- both empty
      rename_i htt
      rw [Option.bind_eq_some] at hstep
      obtain ⟨sT, hsT, hstep⟩ := hstep
      simp only [Option.some.injEq] at hsT
      subst hsT
      simp only [Option.some.injEq] at hstep
      subst hstep
      refine ⟨⟨hlen, hsole⟩, le_refl _, ?_⟩
      intro y hy hylen
      rcases Nat.lt_or_ge y x with hyx | hyx
      · exact hslots y hyx hylen
      · have hyx' : y = x := by omega
        subst hyx'
        exact ⟨fun hf => (hfn hf).elim, fun ht => (htt ht).elim⟩

/-- The whole string loop: starting at the string-table start with no
processed entries, it ends with the slot facts for every entry. -/
theorem writeStringsFrom_slots {so : Nat} :
    ∀ (k x : Nat) (s s' : EncState),
      writeStringsFrom so x k s = some s' →
      EncInv so s → so = 12 + 16 * s.tracks.length → x + k = s.tracks.length →
      SlotsOk s.tracks so x s →
      EncInv so s' ∧ s.pos ≤ s'.pos ∧ s'.tracks = s.tracks ∧
        SlotsOk s.tracks so s.tracks.length s' := by
  intro k
  induction k with
  | zero =>
    intro x s s' h hinv hso hx hslots
    simp only [writeStringsFrom, Option.some.injEq] at h
    subst h
    exact ⟨hinv, le_refl _, rfl, by rw [← hx, Nat.add_zero]; exact hslots⟩
  | succ k ih =>
    intro x s s' h hinv hso hx hslots
    simp only [writeStringsFrom, Option.bind_eq_bind, Option.bind_eq_some] at h
    obtain ⟨s1, h1, h2⟩ := h
    have htr1 : s1.tracks = s.tracks := writeStringsStep_tracks h1
    obtain ⟨hinv1, hpos1, hslots1⟩ :=
      writeStringsStep_slots h1 hinv hso (by omega) hslots
    have hslots1' : SlotsOk s1.tracks so (x + 1) s1 := by rw [htr1]; exact hslots1
    obtain ⟨hinv2, hpos2, htr2, hslots2⟩ :=
      ih (x + 1) s1 s' h2 hinv1 (by rw [htr1]; exact hso) (by rw [htr1]; omega) hslots1'
    refine ⟨hinv2, le_trans hpos1 hpos2, by rw [htr2, htr1], ?_⟩
    rw [htr1] at hslots2
    exact hslots2

theorem packU32_length {v : Int} {bs : List Nat} (h : packU32 v = some bs) :
    bs.length = 4 := by
  unfold packU32 at h
  split at h
  · injection h with h
    rw [← h]
    rfl
  · cases h

theorem packU16_length {v : Int} {bs : List Nat} (h : packU16 v = some bs) :
    bs.length = 2 := by
  unfold packU16 at h
  split at h
  · injection h with h
    rw [← h]
    rfl
  · cases h

theorem packI8_length {v : Int} {bs : List Nat} (h : packI8 v = some bs) :
    bs.length = 1 := by
  unfold packI8 at h
  split at h
  · injection h with h
    rw [← h]
    rfl
  · cases h

theorem packU16_coe_spec {a : Nat} {bs : List Nat} (h : packU16 (a : Int) = some bs) :
    a < 65536 ∧ bs.length = 2 := by
  unfold packU16 at h
  split at h
  · rename_i hc
    injection h with h
    refine ⟨by omega, ?_⟩
    rw [← h]
    rfl
  · cases h

theorem writeRecord_spec {s s' : EncState} {e : TLSTEntry}
    (h : writeRecord s e = some s') :
    s'.tracks = s.tracks ∧ s'.pos = s.pos + 16 ∧
      s'.buf.length = max s.buf.length (s.pos + 16) := by
  simp only [writeRecord, Option.bind_eq_bind, Option.bind_eq_some, Option.pure_def,
    Option.some.injEq] at h
  obtain ⟨b1, h1, b2, h2, b3, h3, b4, h4, b5, h5, b6, h6, b7, h7, hfin⟩ := h
  have l1 := packU32_length h1
  have l2 := packU16_length h2
  have l3 := packI8_length h3
  have l4 := packI8_length h4
  have l5 := packU16_length h5
  have l6 := packU16_length h6
  have l7 := packU16_length h7
  subst hfin
  refine ⟨rfl, ?_, ?_⟩
  · simp only [fwrite, packBool, List.length_cons, List.length_nil]
    omega
  · simp only [fwrite, packBool, storeBytes_length, List.length_cons, List.length_nil]
    omega

theorem foldlM_writeRecord_spec :
    ∀ (l : List TLSTEntry) (s s' : EncState),
      List.foldlM writeRecord s l = some s' →
      s.buf.length ≤ s.pos →
      s'.tracks = s.tracks ∧ s'.pos = s.pos + 16 * l.length ∧
        s'.buf.length ≤ s'.pos ∧
        ((l ≠ [] ∨ s.buf.length = s.pos) → s'.buf.length = s'.pos) := by
  intro l
  induction l with
  | nil =>
    intro s s' h hle
    simp only [List.foldlM, Option.pure_def, Option.some.injEq] at h
    subst h
    refine ⟨rfl, by simp, hle, fun hc => ?_⟩
    rcases hc with hc | hc
    · exact (hc rfl).elim
    · exact hc
  | cons e rest ih =>
    intro s s' h hle
    simp only [List.foldlM, Option.bind_eq_bind, Option.bind_eq_some] at h
    obtain ⟨s1, h1, h2⟩ := h
    obtain ⟨ht1, hp1, hl1⟩ := writeRecord_spec h1
    have hl1' : s1.buf.length = s1.pos := by rw [hl1, hp1]; omega
    obtain ⟨ht2, hp2, hle2, heq2⟩ :=
      ih s1 s' (by simpa [List.foldlM] using h2) (le_of_eq hl1')
    refine ⟨by rw [ht2, ht1], by rw [hp2, hp1]; simp [List.length_cons]; ring,
      hle2, fun _ => heq2 (Or.inr hl1')⟩

/-- C5: whenever binary encoding succeeds, every stored 16-bit string
offset of a non-empty filename or title is at most 0xFFFE: a non-empty
string is never silently assigned the 0xFFFF absent-sentinel.  (Encoding
fails with struct.error when an offset, the total size or the strings
offset exceeds 16 bits, or the entry count exceeds 32 bits; the
successful case is bounded because the total size, written as a 16-bit
field, dominates stringsOffset + offset + 2.) -/
theorem toTlst_stored_offsets_le_FFFE (T : TLST) (buf : List Nat)
    (h : T.toTlst = some buf) (x : Nat) (hx : x < T.tracks.length) :
    ((T.tracks.get ⟨x, hx⟩).filename ≠ [] → bufU16 buf (x * 16 + 20) ≤ 65534) ∧
    ((T.tracks.get ⟨x, hx⟩).title ≠ [] → bufU16 buf (x * 16 + 22) ≤ 65534) := by
  rw [TLST.toTlst, Option.map_eq_some'] at h
  obtain ⟨sf, hproc, hbuf⟩ := h
  subst hbuf
  simp only [TLST.toTlstProc, Option.bind_eq_bind, Option.bind_eq_some, Option.pure_def,
    Option.some.injEq] at hproc
  obtain ⟨cb, hcb, s4, h4, s5, h5, bt, hbt, bso, hbso, hfin⟩ := hproc
  subst hfin
  have hcbl := packU32_length hcb
  have hs3len :
      (fseek (fwrite (fwrite ⟨T.tracks, [], 0⟩ [84, 76, 83, 84]) cb) 12).buf.length = 8 := by
    simp only [fseek, fwrite, storeBytes_length, List.length_cons, List.length_nil]
    omega
  obtain ⟨hftr, hfpos, hfle, hfeq⟩ :=
    foldlM_writeRecord_spec _ _ s4 h4 (by rw [hs3len]; simp [fseek, fwrite])
  have htr4 : s4.tracks = T.tracks := hftr
  have hs4pos : s4.pos = 12 + 16 * T.tracks.length := by
    rw [hfpos]
    simp [fseek, fwrite]
  have hs4len : s4.buf.length = s4.pos :=
    hfeq (Or.inl (by simp [fseek, fwrite]; intro hc; rw [hc] at hx; simp at hx))
  obtain ⟨hinv5, hpos5, htr5, hslots5⟩ :=
    writeStringsFrom_slots s4.tracks.length 0 s4 s5 h5 ⟨hs4len, le_refl _⟩
      (by rw [hs4pos, htr4]) (by omega)
      (fun y hy => absurd hy (Nat.not_lt_zero y))
  rw [htr4] at hslots5
  have htotal := packU16_coe_spec hbt
  have hsoc := packU16_coe_spec hbso
  obtain ⟨hf, ht⟩ := hslots5 x hx hx
  have hle12 : 12 ≤ s4.pos := by omega
  constructor
  · intro hne
    obtain ⟨v, hv1, hv2, hv3, hv4⟩ := hf hne
    have hvle : v ≤ 65534 := by omega
    have hix : x * 16 + 20 < s4.pos := by omega
    unfold bufU16
    simp only [fseek, fwrite]
    rw [storeBytes_getD_after (by rw [htotal.2, hsoc.2]; omega),
      storeBytes_getD_after (by rw [htotal.2]; omega),
      storeBytes_getD_after (by rw [htotal.2, hsoc.2]; omega),
      storeBytes_getD_after (by rw [htotal.2]; omega),
      hv3, hv4]
    omega
  · intro hne
    obtain ⟨v, hv1, hv2, hv3, hv4⟩ := ht hne
    have hvle : v ≤ 65534 := by omega
    unfold bufU16
    simp only [fseek, fwrite]
    rw [storeBytes_getD_after (by rw [htotal.2, hsoc.2]; omega),
      storeBytes_getD_after (by rw [htotal.2]; omega),
      storeBytes_getD_after (by rw [htotal.2, hsoc.2]; omega),
      storeBytes_getD_after (by rw [htotal.2]; omega),
      hv3, hv4]
    omega

/-- C5 witness: the bound applied to a concrete one-entry encode with
both strings present. -/
theorem toTlst_stored_offsets_le_FFFE_witness :
    bufU16 ((TLST.toTlst offsetsWitnessTLST).getD []) 20 ≤ 65534 ∧
    bufU16 ((TLST.toTlst offsetsWitnessTLST).getD []) 22 ≤ 65534 := by
  have h : TLST.toTlst offsetsWitnessTLST =
      some ((TLST.toTlst offsetsWitnessTLST).getD []) := by decide
  exact ⟨(toTlst_stored_offsets_le_FFFE offsetsWitnessTLST _ h 0 (by decide)).1 (by decide),
         (toTlst_stored_offsets_le_FFFE offsetsWitnessTLST _ h 0 (by decide)).2 (by decide)⟩
